import Mathlib

/-!
Verification of `file_monitor.py` (circus_monitor repository).

Shallow embedding of the monitor's pure logic:

* the Status Engine `get_status_and_update_info`,
* the result-exists predicate `db_exists`,
* the state-store helpers `make_key` / `load_state`,
* the identity parsing `parse_job_stage` (character-level model),
* the poll-tick of `monitor_forever` (pass 1 evaluation, extraction
  dispatch, pass 2 drain, CSV/state write decisions),
* the time codec `to_unix` / `split_ts` (proleptic Gregorian calendar in
  a fixed local timezone, seconds since 1970-01-01, years 1970..9999).

Timestamps are modelled as integers (the monitor only compares and
subtracts them); Python dictionaries with optional keys are modelled as
structures with `Option` fields.
-/

/-- File facts handed to the Status Engine for one file: the observed
modified time (`to_unix(rec["modified_date"], rec["modified_time"])`,
already composed to epoch seconds) and the observed size. -/
structure FileFacts where
  modified_unix : Int
  size : Int
deriving DecidableEq, Repr

/-- One per-identity record of the persistent state store (`info` dict in
`file_monitor.py`).  Absent dictionary keys are `none`. -/
structure Info where
  last_seen_mtime : Option Int := none
  last_seen_size : Option Int := none
  last_change_time : Option Int := none
  last_extracted_mtime : Option Int := none
  last_status : Option String := none
  rerun : Option Nat := none
deriving DecidableEq, Repr

/-- Function `db_exists(job, stage)` from `file_monitor.py`: the stub result-exists
predicate, which returns `True` for every identity. -/
def db_exists (job stage : String) : Bool :=
  true

/-- Function `get_status_and_update_info(job, stage, rec, info, now_unix,
is_extracting)` from `file_monitor.py`.  The result-exists predicate is a
parameter `dbq` (the Python function reads the module-level `db_exists`;
passing `db_exists` for `dbq` gives exactly the source's behaviour).
Returns the computed status together with the updated record. -/
def get_status_and_update_info (dbq : String → String → Bool)
    (job stage : String) (rec : FileFacts) (info : Info)
    (now_unix : Int) (is_extracting : Bool) : String × Info :=
  let modified_unix := rec.modified_unix
  let size := rec.size
  -- Track when file content last changed
  let last_change_time :=
    if info.last_seen_mtime = none ∨ info.last_seen_mtime ≠ some modified_unix ∨
        info.last_seen_size ≠ some size then
      some now_unix
    else
      info.last_change_time
  let rerun0 := info.rerun.getD 0
  let ex := dbq job stage
  let updated : Nat → Info := fun r =>
    { info with
      last_seen_mtime := some modified_unix
      last_seen_size := some size
      last_change_time := last_change_time
      rerun := some r }
  if is_extracting then
    ("extracting", updated rerun0)
  else
    if ex then
      let never_extracted := info.last_extracted_mtime.isNone
      let changed_after_extract :=
        match info.last_extracted_mtime with
        | some t => decide (modified_unix > t)
        | none => false
      if never_extracted then
        ("await extraction", updated rerun0)
      else if changed_after_extract then
        if info.last_status = some "complete" then
          ("await extraction", updated (rerun0 + 1))
        else
          ("await extraction", updated rerun0)
      else
        ("complete", updated rerun0)
    else
      let age := now_unix - (last_change_time.getD now_unix)
      (if age ≤ 15 * 60 then "file running" else "file failed", updated rerun0)

/-- Function `make_key(job, stage)` from `file_monitor.py`: the stable state key. -/
def make_key (job stage : String) : String :=
  job ++ "::" ++ stage

/-- JSON values, as produced by `json.load` (numbers restricted to the
integers the monitor stores; field order kept). -/
inductive Json where
  | null : Json
  | bool (b : Bool) : Json
  | num (n : Int) : Json
  | str (s : String) : Json
  | arr (xs : List Json) : Json
  | obj (fields : List (String × Json)) : Json

/-- Function `load_state(state_path)` from `file_monitor.py`.  The file system and
the JSON parser are external: `fs` returns the file's contents (or `none`
when `open` raises) and `parse` is `json.load` (or `none` when it raises).
Any failure yields the empty mapping `{}`. -/
def load_state (fs : String → Option String) (parse : String → Option Json)
    (state_path : String) : Json :=
  match fs state_path with
  | none => Json.obj []
  | some contents =>
    match parse contents with
    | none => Json.obj []
    | some j => j

/-- One update applied to a single identity's record over its lifetime:
either a poll-tick evaluation (Status Engine run followed by the
orchestrator's `last_status` write, including the dispatch override to
`extracting`), or the folding-in of a finished extraction in the drain
step of `monitor_forever` (`ok = true` for success, `false` for failure). -/
inductive RecStep where
  | eval (dbq : String → String → Bool) (job stage : String) (rec : FileFacts)
      (now_unix : Int) (is_extracting : Bool) : RecStep
  | drained (ok : Bool) : RecStep

/-- Apply one `RecStep` to a record, as `monitor_forever` does. -/
def applyRecStep (info : Info) : RecStep → Info
  | RecStep.eval dbq job stage rec now_unix is_extracting =>
    let r := get_status_and_update_info dbq job stage rec info now_unix is_extracting
    let status := if r.1 = "await extraction" ∧ is_extracting = false then "extracting" else r.1
    { r.2 with last_status := some status }
  | RecStep.drained ok =>
    if ok then
      { info with last_status := some "complete",
                  last_extracted_mtime := info.last_seen_mtime }
    else
      { info with last_status := some "file failed" }

namespace KeyM

/-!
Character-level model of the identity parsing and key splitting: Python
strings are lists of characters here, so that `str.split` semantics can
be stated and proved exactly.
-/

/-- Model of `os.path.basename`: everything after the last `/`. -/
def basename (path : List Char) : List Char :=
  (path.reverse.takeWhile (fun c => !(c == '/'))).reverse

/-- Python `str.split(c)` for a one-character separator: splitting the
empty string gives `[""]`, and adjacent separators give empty fields. -/
def splitOnChar (c : Char) : List Char → List (List Char)
  | [] => [[]]
  | x :: rest =>
    if x == c then
      [] :: splitOnChar c rest
    else
      match splitOnChar c rest with
      | [] => [[x]]
      | p :: ps => (x :: p) :: ps

/-- Function `parse_job_stage(file_path)` from `file_monitor.py`:
`base = basename(path)`, `parts = base.split(".")`,
`job = parts[0] if parts else "job_unknown"`,
`stage = parts[1] if len(parts) > 1 else "stage0"`. -/
def parse_job_stage (file_path : List Char) : List Char × List Char :=
  let base := basename file_path
  let parts := splitOnChar '.' base
  let job := if parts.length > 0 then parts.headD [] else "job_unknown".toList
  let stage := if parts.length > 1 then parts.getD 1 [] else "stage0".toList
  (job, stage)

/-- Function `make_key(job, stage)`, character level: `job ++ "::" ++ stage`. -/
def make_key (job stage : List Char) : List Char :=
  job ++ ':' :: ':' :: stage

/-- Boolean prefix test on character lists. -/
def isPre : List Char → List Char → Bool
  | [], _ => true
  | _ :: _, [] => false
  | a :: as, b :: bs => a == b && isPre as bs

/-- Does `sep` occur as a contiguous substring of `l`? -/
def hasSub (sep : List Char) : List Char → Bool
  | [] => sep.isEmpty
  | c :: rest => isPre sep (c :: rest) || hasSub sep rest

/-- Does the string end in `:`? -/
def endsColon : List Char → Bool
  | [] => false
  | [c] => c == ':'
  | _ :: c :: rest => endsColon (c :: rest)

/-- Python `s.split(sep, 1)` restricted to the case where `sep` occurs:
returns the part before the first occurrence and everything after it
(`none` when `sep` does not occur, where the drain step's tuple
unpacking would raise). -/
def splitFirst (sep : List Char) : List Char → Option (List Char × List Char)
  | [] => none
  | c :: rest =>
    if isPre sep (c :: rest) then
      some ([], (c :: rest).drop sep.length)
    else
      match splitFirst sep rest with
      | some (a, b) => some (c :: a, b)
      | none => none

end KeyM

/-!
Model of one iteration ("tick") of `monitor_forever`.  External effects
are explicit data: discovered files arrive as already-collected
`get_data_record` outputs, the thread pool is a list of futures whose
completion status and outcome for this tick are given, and the writes of
the tick are returned as a list of effects.
-/

/-- The fast `get_data_record` output for one discovered file (the
display-only created/user columns are omitted; they play no role in any
decision of the loop). -/
structure FileRec where
  job : String
  stage : String
  facts : FileFacts
deriving DecidableEq, Repr

/-- One entry of `future_to_key`: the key it was submitted for, whether
`fut.done()` is true at this tick, and whether `fut.result()` succeeds. -/
structure Fut where
  key : String
  done : Bool
  ok : Bool
deriving DecidableEq, Repr

/-- One row of the in-memory DataFrame `df` (decision-relevant columns). -/
structure Row where
  job : String
  stage : String
  modified_unix : Int
  size : Int
  status : String
  rerun : Nat
deriving DecidableEq, Repr

/-- The orchestrator's mutable state: the state mapping, the DataFrame
and the future table. -/
structure TickState where
  state : List (String × Info)
  df : List Row
  futures : List Fut
deriving DecidableEq, Repr

/-- Writes performed at the end of a tick. -/
inductive Effect where
  | writeCsv (rows : List Row) : Effect
  | writeState (st : List (String × Info)) : Effect
deriving DecidableEq

/-- Dictionary lookup in the state mapping. -/
def lookupState (st : List (String × Info)) (k : String) : Option Info :=
  match st with
  | [] => none
  | (k2, v) :: rest => if k2 = k then some v else lookupState rest k

/-- Dictionary update `state[key] = info` (replace or append). -/
def setState (st : List (String × Info)) (k : String) (v : Info) :
    List (String × Info) :=
  match st with
  | [] => [(k, v)]
  | (k2, v2) :: rest => if k2 = k then (k, v) :: rest else (k2, v2) :: setState rest k v

/-- Row mask `(df["job"] == job) & (df["stage"] == stage)`. -/
def rowMatch (job stage : String) (r : Row) : Bool :=
  r.job == job && r.stage == stage

/-- Upsert of one record's row into `df`. -/
def upsertRow (df : List Row) (rec : FileRec) (status : String) (rerun : Nat) :
    List Row :=
  let row : Row := ⟨rec.job, rec.stage, rec.facts.modified_unix, rec.facts.size, status, rerun⟩
  if df.isEmpty then
    [row]
  else if df.any (rowMatch rec.job rec.stage) then
    df.map (fun r => if rowMatch rec.job rec.stage r then row else r)
  else
    df ++ [row]

/-- Pass-1 body of `monitor_forever` for one discovered file: evaluate
the Status Engine, submit an extraction if needed (overriding the status
to `extracting`), store the record, and report whether this identity
changed in a way that requires a CSV rewrite (new key, modified time
change, status change or rerun change). -/
def processFile (now_unix : Int) (ts : TickState) (r : FileRec) :
    TickState × Bool :=
  let key := make_key r.job r.stage
  let info := (lookupState ts.state key).getD {}
  let is_extracting := ts.futures.any (fun f => f.key == key && !f.done)
  let prev_status := info.last_status
  let prev_mtime := info.last_seen_mtime
  let prev_rerun := info.rerun.getD 0
  let er := get_status_and_update_info db_exists r.job r.stage r.facts info now_unix is_extracting
  let submit := er.1 == "await extraction" && !is_extracting
  let status := if submit then "extracting" else er.1
  let futures2 := if submit then ts.futures ++ [⟨key, false, true⟩] else ts.futures
  let info2 := { er.2 with last_status := some status }
  let state2 := setState ts.state key info2
  let rerun := info2.rerun.getD 0
  let new_key_flag := prev_mtime.isNone
  let modified_changed := !prev_mtime.isNone && prev_mtime != some r.facts.modified_unix
  let status_changed := prev_status != some status
  let rerun_changed := prev_rerun != rerun
  let changed := new_key_flag || modified_changed || status_changed || rerun_changed
  let df2 := upsertRow ts.df r status rerun
  (⟨state2, df2, futures2⟩, changed)

/-- Pass 1 over all discovered files, threading the dirty flag. -/
def pass1 (now_unix : Int) (ts : TickState) (files : List FileRec) (dirty : Bool) :
    TickState × Bool :=
  match files with
  | [] => (ts, dirty)
  | r :: rs =>
    let p := processFile now_unix ts r
    pass1 now_unix p.1 rs (dirty || p.2)

/-- Python `key.split("::", 1)` on Lean strings (first occurrence only), as used
by the drain step; keys built by `make_key` always contain `::`. -/
def splitKeyString (key : String) : String × String :=
  match key.splitOn "::" with
  | [] => ("", "")
  | a :: rest => (a, String.intercalate "::" rest)

/-- Pass-2 body: fold one finished extraction into the record and the
DataFrame.  Reports whether a row was updated (which marks the CSV
dirty). -/
def drainOne (ts : TickState) (f : Fut) : TickState × Bool :=
  let info := (lookupState ts.state f.key).getD {}
  let info2 :=
    if f.ok then
      { info with last_status := some "complete",
                  last_extracted_mtime := info.last_seen_mtime }
    else
      { info with last_status := some "file failed" }
  let new_status := if f.ok then "complete" else "file failed"
  let state2 := setState ts.state f.key info2
  let js := splitKeyString f.key
  let hasRow := !ts.df.isEmpty && ts.df.any (rowMatch js.1 js.2)
  let df2 :=
    if hasRow then
      ts.df.map (fun r => if rowMatch js.1 js.2 r then { r with status := new_status } else r)
    else
      ts.df
  (⟨state2, df2, ts.futures⟩, hasRow)

/-- Pass 2 over all finished futures, threading the dirty flag. -/
def drainAll (ts : TickState) (dirty : Bool) : List Fut → TickState × Bool
  | [] => (ts, dirty)
  | f :: fs =>
    let p := drainOne ts f
    drainAll p.1 (dirty || p.2) fs

/-- One tick of `monitor_forever`: pass 1 on the discovered files, drain
the finished futures, then write the CSV if dirty (and `df` nonempty) and
always write the state file. -/
def tick (now_unix : Int) (ts0 : TickState) (files : List FileRec) :
    TickState × List Effect :=
  let p := pass1 now_unix ts0 files false
  let ts1 := p.1
  let finished := ts1.futures.filter (fun f => f.done)
  let ts1b : TickState := ⟨ts1.state, ts1.df, ts1.futures.filter (fun f => !f.done)⟩
  let q := drainAll ts1b p.2 finished
  let ts2 := q.1
  let effects :=
    (if q.2 && !ts2.df.isEmpty then [Effect.writeCsv ts2.df] else []) ++
      [Effect.writeState ts2.state]
  (ts2, effects)

/-- Some file processed in pass 1 observed a change for its identity
(new key, modified-time change, status change or rerun change), at the
intermediate state reached when it was processed. -/
inductive Pass1Changed (now_unix : Int) : TickState → List FileRec → Prop where
  | here (ts : TickState) (r : FileRec) (rs : List FileRec) :
      (processFile now_unix ts r).2 = true → Pass1Changed now_unix ts (r :: rs)
  | there (ts : TickState) (r : FileRec) (rs : List FileRec) :
      Pass1Changed now_unix (processFile now_unix ts r).1 rs →
      Pass1Changed now_unix ts (r :: rs)

/-- Some finished extraction updated an existing row's status in the
drain step. -/
inductive DrainChanged : TickState → List Fut → Prop where
  | here (ts : TickState) (f : Fut) (fs : List Fut) :
      (drainOne ts f).2 = true → DrainChanged ts (f :: fs)
  | there (ts : TickState) (f : Fut) (fs : List Fut) :
      DrainChanged (drainOne ts f).1 fs → DrainChanged ts (f :: fs)

/-- The tick observed a change: either pass 1 saw an identity whose
status, rerun or modified time changed (or a new identity), or the drain
step folded a finished extraction into an existing row. -/
def TickChanged (now_unix : Int) (ts0 : TickState) (files : List FileRec) : Prop :=
  Pass1Changed now_unix ts0 files ∨
    DrainChanged ⟨(pass1 now_unix ts0 files false).1.state,
                  (pass1 now_unix ts0 files false).1.df,
                  (pass1 now_unix ts0 files false).1.futures.filter (fun f => !f.done)⟩
      ((pass1 now_unix ts0 files false).1.futures.filter (fun f => f.done))

/-!
Time codec.  `to_unix` is `time.mktime(strptime(...))` and `split_ts` is
`datetime.fromtimestamp(...).strftime(...)`: local calendar time composed
to / decomposed from epoch seconds, with no timezone normalization.  The
model fixes one local clock (a constant offset from the epoch, taken as
zero) over the proleptic Gregorian calendar and covers the representable
range years 1970..9999, where the epoch is a nonnegative number of
seconds since `1970-01-01 00:00:00`.
-/

/-- Gregorian leap-year rule. -/
def isLeap (y : Nat) : Bool :=
  (y % 4 == 0 && y % 100 != 0) || y % 400 == 0

/-- Length of month `m` (1..12) of year `y` in days. -/
def daysInMonth (y m : Nat) : Nat :=
  if m = 2 then (if isLeap y then 29 else 28)
  else if m = 4 ∨ m = 6 ∨ m = 9 ∨ m = 11 then 30
  else 31

/-- Length of year `y` in days. -/
def daysInYear (y : Nat) : Nat :=
  if isLeap y then 366 else 365

/-- Days in `k` consecutive years starting at year `y`. -/
def daysFromYear (y : Nat) : Nat → Nat
  | 0 => 0
  | k + 1 => daysInYear y + daysFromYear (y + 1) k

/-- Days in `k` consecutive months of year `y` starting at month `m`. -/
def daysFromMonth (y m : Nat) : Nat → Nat
  | 0 => 0
  | k + 1 => daysInMonth y m + daysFromMonth y (m + 1) k

/-- Day number (days since 1970-01-01) of the calendar date `y-m-d`. -/
def dateToDays (y m d : Nat) : Nat :=
  daysFromYear 1970 (y - 1970) + daysFromMonth y 1 (m - 1) + (d - 1)

/-- Epoch seconds of the calendar tuple. -/
def tupleToEpoch (y m d h mi s : Nat) : Nat :=
  86400 * dateToDays y m d + 3600 * h + 60 * mi + s

/-- Strip whole years off a day count, starting at year `y0` (fuel-bounded
structural recursion; fuel at least the number of years suffices). -/
def stripYears (fuel : Nat) (y0 n : Nat) : Nat × Nat :=
  match fuel with
  | 0 => (y0, n)
  | fuel + 1 =>
    if n < daysInYear y0 then (y0, n)
    else stripYears fuel (y0 + 1) (n - daysInYear y0)

/-- Strip whole months of year `y` off a day count, starting at month `m0`. -/
def stripMonths (fuel : Nat) (y m0 n : Nat) : Nat × Nat :=
  match fuel with
  | 0 => (m0, n)
  | fuel + 1 =>
    if n < daysInMonth y m0 then (m0, n)
    else stripMonths fuel y (m0 + 1) (n - daysInMonth y m0)

/-- Epoch seconds decomposed into the calendar tuple
`(year, month, day, hour, minute, second)`. -/
def epochToTuple (e : Nat) : Nat × Nat × Nat × Nat × Nat × Nat :=
  let days := e / 86400
  let sod := e % 86400
  let yn := stripYears (days + 1) 1970 days
  let md := stripMonths 12 yn.1 1 yn.2
  (yn.1, md.1, md.2 + 1, sod / 3600, sod % 3600 / 60, sod % 60)

/-- The decimal digit character for `n` (0..9). -/
def digitChar (n : Nat) : Char :=
  Char.ofNat (48 + n)

/-- Numeric value of a decimal digit character. -/
def digitVal (c : Char) : Nat :=
  c.toNat - 48

/-- Is `c` a decimal digit? -/
def isDig (c : Char) : Bool :=
  '0' ≤ c && c ≤ '9'

/-- Zero-padded two-digit decimal string (`%m`, `%d`, `%H`, `%M`, `%S`). -/
def pad2 (n : Nat) : List Char :=
  [digitChar (n / 10 % 10), digitChar (n % 10)]

/-- Zero-padded four-digit decimal string (`%Y`). -/
def pad4 (n : Nat) : List Char :=
  [digitChar (n / 1000 % 10), digitChar (n / 100 % 10), digitChar (n / 10 % 10),
   digitChar (n % 10)]

/-- Formatting `strftime("%Y-%m-%d")`. -/
def formatDate (y m d : Nat) : String :=
  String.mk (pad4 y ++ '-' :: (pad2 m ++ '-' :: pad2 d))

/-- Formatting `strftime("%H:%M:%S")`. -/
def formatTime (h mi s : Nat) : String :=
  String.mk (pad2 h ++ ':' :: (pad2 mi ++ ':' :: pad2 s))

/-- Parsing by `strptime` of the date half of `"%Y-%m-%d %H:%M:%S"` on a fixed-width
formatted string: four digits, dash, two digits, dash, two digits. -/
def parseDate (s : String) : Option (Nat × Nat × Nat) :=
  match s.toList with
  | [y1, y2, y3, y4, c1, m1, m2, c2, d1, d2] =>
    if c1 == '-' && c2 == '-' &&
        isDig y1 && isDig y2 && isDig y3 && isDig y4 &&
        isDig m1 && isDig m2 && isDig d1 && isDig d2 then
      some (digitVal y1 * 1000 + digitVal y2 * 100 + digitVal y3 * 10 + digitVal y4,
            digitVal m1 * 10 + digitVal m2,
            digitVal d1 * 10 + digitVal d2)
    else none
  | _ => none

/-- Parsing by `strptime` of the time half of `"%Y-%m-%d %H:%M:%S"`. -/
def parseTime (s : String) : Option (Nat × Nat × Nat) :=
  match s.toList with
  | [h1, h2, c1, m1, m2, c2, s1, s2] =>
    if c1 == ':' && c2 == ':' &&
        isDig h1 && isDig h2 && isDig m1 && isDig m2 && isDig s1 && isDig s2 then
      some (digitVal h1 * 10 + digitVal h2,
            digitVal m1 * 10 + digitVal m2,
            digitVal s1 * 10 + digitVal s2)
    else none
  | _ => none

/-- Is the calendar tuple a valid date/time in the model's representable
range (years 1970..9999, valid month/day, time of day in range)? -/
def ValidDT (y m d h mi s : Nat) : Prop :=
  1970 ≤ y ∧ y ≤ 9999 ∧ 1 ≤ m ∧ m ≤ 12 ∧ 1 ≤ d ∧ d ≤ daysInMonth y m ∧
    h < 24 ∧ mi < 60 ∧ s < 60

instance (y m d h mi s : Nat) : Decidable (ValidDT y m d h mi s) := by
  unfold ValidDT
  infer_instance

/-- Function `to_unix(date_str, time_str)` from `file_monitor.py`: parse the two
strings (`strptime` raises, i.e. `none`, on malformed input or
out-of-range fields) and compose them into epoch seconds. -/
def to_unix (date_str time_str : String) : Option Nat :=
  match parseDate date_str, parseTime time_str with
  | some (y, m, d), some (h, mi, s) =>
    if ValidDT y m d h mi s then some (tupleToEpoch y m d h mi s) else none
  | _, _ => none

/-- Function `split_ts(epoch)` from `file_monitor.py`: decompose epoch seconds
into the formatted `(date_str, time_str)` pair. -/
def split_ts (epoch : Nat) : String × String :=
  let t := epochToTuple epoch
  (formatDate t.1 t.2.1 t.2.2.1, formatTime t.2.2.2.1 t.2.2.2.2.1 t.2.2.2.2.2)

/-- C2: in-flight priority. -/
theorem c2_extracting_priority (dbq : String → String → Bool)
    (job stage : String) (rec : FileFacts) (info : Info) (now_unix : Int) :
    (get_status_and_update_info dbq job stage rec info now_unix true).1 = "extracting" := by
  rfl

/-- C1: rerun trigger for a previously complete record. -/
theorem c1_rerun_trigger (dbq : String → String → Bool)
    (job stage : String) (rec : FileFacts) (info : Info) (now_unix T : Int)
    (hdb : dbq job stage = true)
    (hT : info.last_extracted_mtime = some T)
    (hst : info.last_status = some "complete") :
    (rec.modified_unix > T →
      (get_status_and_update_info dbq job stage rec info now_unix false).1 =
          "await extraction" ∧
      (get_status_and_update_info dbq job stage rec info now_unix false).2.rerun =
          some (info.rerun.getD 0 + 1)) ∧
    (rec.modified_unix ≤ T →
      (get_status_and_update_info dbq job stage rec info now_unix false).1 = "complete" ∧
      (get_status_and_update_info dbq job stage rec info now_unix false).2.rerun =
          some (info.rerun.getD 0)) := by
  constructor
  · intro hgt
    simp [get_status_and_update_info, hdb, hT, hst, hgt]
  · intro hle
    simp [get_status_and_update_info, hdb, hT, hst, not_lt.mpr hle]

/-- Witness for C1 at a concrete input: `T = 100`, modified time `101`
(strictly newer) gives `await extraction` with rerun `3 + 1`; the same
record with modified time `100` gives `complete` with rerun `3`. -/
theorem c1_rerun_trigger_witness :
    (get_status_and_update_info db_exists "job42" "stage3" ⟨101, 7⟩
        { last_seen_mtime := some 100, last_seen_size := some 7,
          last_change_time := some 50, last_extracted_mtime := some 100,
          last_status := some "complete", rerun := some 3 } 1000 false).1 =
      "await extraction" ∧
    (get_status_and_update_info db_exists "job42" "stage3" ⟨101, 7⟩
        { last_seen_mtime := some 100, last_seen_size := some 7,
          last_change_time := some 50, last_extracted_mtime := some 100,
          last_status := some "complete", rerun := some 3 } 1000 false).2.rerun =
      some 4 ∧
    (get_status_and_update_info db_exists "job42" "stage3" ⟨100, 7⟩
        { last_seen_mtime := some 100, last_seen_size := some 7,
          last_change_time := some 50, last_extracted_mtime := some 100,
          last_status := some "complete", rerun := some 3 } 1000 false).1 =
      "complete" ∧
    (get_status_and_update_info db_exists "job42" "stage3" ⟨100, 7⟩
        { last_seen_mtime := some 100, last_seen_size := some 7,
          last_change_time := some 50, last_extracted_mtime := some 100,
          last_status := some "complete", rerun := some 3 } 1000 false).2.rerun =
      some 3 := by
  have h1 := c1_rerun_trigger db_exists "job42" "stage3" ⟨101, 7⟩
    { last_seen_mtime := some 100, last_seen_size := some 7,
      last_change_time := some 50, last_extracted_mtime := some 100,
      last_status := some "complete", rerun := some 3 } 1000 100
    (by decide) (by decide) (by decide)
  have h2 := c1_rerun_trigger db_exists "job42" "stage3" ⟨100, 7⟩
    { last_seen_mtime := some 100, last_seen_size := some 7,
      last_change_time := some 50, last_extracted_mtime := some 100,
      last_status := some "complete", rerun := some 3 } 1000 100
    (by decide) (by decide) (by decide)
  refine ⟨(h1.1 (by decide)).1, ?_, (h2.2 (by decide)).1, ?_⟩
  · have := (h1.1 (by decide)).2
    simpa using this
  · have := (h2.2 (by decide)).2
    simpa using this

/-- C3: stall classification when no result exists.  The age is taken
from the refreshed `last_change_time` (the one stored in the updated
record), with a null value counting as age 0. -/
theorem c3_stall_classification (dbq : String → String → Bool)
    (job stage : String) (rec : FileFacts) (info : Info) (now_unix : Int)
    (hdb : dbq job stage = false) :
    (get_status_and_update_info dbq job stage rec info now_unix false).1 =
      (if now_unix -
          ((get_status_and_update_info dbq job stage rec info now_unix false).2.last_change_time.getD
            now_unix) ≤ 900 then "file running" else "file failed") := by
  simp only [get_status_and_update_info, hdb]
  split_ifs <;> simp_all

/-- Witness for C3: with an unchanged file whose last change was 901
seconds ago the status is `file failed`; at 899 seconds it is
`file running`. -/
theorem c3_stall_classification_witness :
    (get_status_and_update_info (fun _ _ => false) "job42" "stage3" ⟨100, 7⟩
        { last_seen_mtime := some 100, last_seen_size := some 7,
          last_change_time := some 99 } 1000 false).1 = "file failed" ∧
    (get_status_and_update_info (fun _ _ => false) "job42" "stage3" ⟨100, 7⟩
        { last_seen_mtime := some 100, last_seen_size := some 7,
          last_change_time := some 101 } 1000 false).1 = "file running" := by
  have h1 := c3_stall_classification (fun _ _ => false) "job42" "stage3" ⟨100, 7⟩
    { last_seen_mtime := some 100, last_seen_size := some 7,
      last_change_time := some 99 } 1000 rfl
  have h2 := c3_stall_classification (fun _ _ => false) "job42" "stage3" ⟨100, 7⟩
    { last_seen_mtime := some 100, last_seen_size := some 7,
      last_change_time := some 101 } 1000 rfl
  constructor
  · rw [h1]; decide
  · rw [h2]; decide

/-- C5, counterexample to the claim as stated: on the very first
observation of an identity (empty record) with the result-exists
predicate false and no extraction in flight, the Status Engine returns
`file running` (the fresh record makes the age 0), not
`await extraction`. -/
theorem c5_counterexample :
    ¬ (get_status_and_update_info (fun _ _ => false) "job1" "stage1" ⟨100, 5⟩ {}
        1000 false).1 = "await extraction" := by
  decide

/-- C5 as amended: first observation of an identity whose result-exists
predicate is true (as `db_exists` always is in this code) with no
extraction in flight yields `await extraction` and `rerun = 0`. -/
theorem c5_new_identity (dbq : String → String → Bool)
    (job stage : String) (rec : FileFacts) (now_unix : Int)
    (hdb : dbq job stage = true) :
    (get_status_and_update_info dbq job stage rec {} now_unix false).1 =
      "await extraction" ∧
    (get_status_and_update_info dbq job stage rec {} now_unix false).2.rerun = some 0 := by
  simp [get_status_and_update_info, hdb, Option.isNone]

/-- Witness for C5 (amended) at a concrete input. -/
theorem c5_new_identity_witness :
    (get_status_and_update_info db_exists "job1" "stage1" ⟨100, 5⟩ {} 1000 false).1 =
      "await extraction" ∧
    (get_status_and_update_info db_exists "job1" "stage1" ⟨100, 5⟩ {} 1000 false).2.rerun =
      some 0 :=
  c5_new_identity db_exists "job1" "stage1" ⟨100, 5⟩ 1000 rfl

/-- C8: `load_state` returns the parsed JSON value when the file exists
and parses, and the empty mapping `{}` on any read or parse failure; it
is a total function (never raises). -/
theorem c8_load_state_recovery (fs : String → Option String)
    (parse : String → Option Json) (state_path : String) :
    load_state fs parse state_path = ((fs state_path).bind parse).getD (Json.obj []) := by
  unfold load_state
  cases h : fs state_path with
  | none => simp
  | some contents =>
    cases h2 : parse contents with
    | none => simp [h2]
    | some j => simp [h2]

/-- The Status Engine either keeps `rerun` or increments it by one. -/
theorem rerun_keep_or_incr (dbq : String → String → Bool)
    (job stage : String) (rec : FileFacts) (info : Info)
    (now_unix : Int) (is_extracting : Bool) :
    (get_status_and_update_info dbq job stage rec info now_unix is_extracting).2.rerun =
        some (info.rerun.getD 0) ∨
    (get_status_and_update_info dbq job stage rec info now_unix is_extracting).2.rerun =
        some (info.rerun.getD 0 + 1) := by
  unfold get_status_and_update_info
  dsimp only
  split_ifs <;> simp

/-- Any single lifetime step keeps `rerun` at least as large. -/
theorem rerun_le_step (info : Info) (s : RecStep) :
    info.rerun.getD 0 ≤ (applyRecStep info s).rerun.getD 0 := by
  cases s with
  | eval dbq job stage rec now_unix is_extracting =>
    have h := rerun_keep_or_incr dbq job stage rec info now_unix is_extracting
    unfold applyRecStep
    dsimp only
    rcases h with h | h <;> simp [h]
  | drained ok =>
    cases ok <;> simp [applyRecStep]

/-- C4: over any sequence of Status Engine evaluations and
extraction-completion updates, `rerun` never decreases. -/
theorem c4_rerun_monotone (steps : List RecStep) (info : Info) :
    info.rerun.getD 0 ≤ (List.foldl applyRecStep info steps).rerun.getD 0 := by
  induction steps generalizing info with
  | nil => simp
  | cons s rest ih =>
    calc info.rerun.getD 0 ≤ (applyRecStep info s).rerun.getD 0 := rerun_le_step info s
      _ ≤ (List.foldl applyRecStep (applyRecStep info s) rest).rerun.getD 0 := ih _
      _ = (List.foldl applyRecStep info (s :: rest)).rerun.getD 0 := rfl

/-- Key splitting inverts key building whenever the job component
contains no `::` and does not end in `:`. -/
theorem splitFirst_make_key (s : List Char) : ∀ (j : List Char),
    KeyM.hasSub [':', ':'] j = false → KeyM.endsColon j = false →
    KeyM.splitFirst [':', ':'] (KeyM.make_key j s) = some (j, s) := by
  intro j
  induction j with
  | nil =>
    intro _ _
    simp [KeyM.make_key, KeyM.splitFirst, KeyM.isPre]
  | cons c j2 ih =>
    intro h1 h2
    have hpre : KeyM.isPre [':', ':'] (c :: KeyM.make_key j2 s) = false := by
      cases j2 with
      | nil =>
        by_cases hc : c = ':'
        · subst hc
          simp [KeyM.endsColon] at h2
        · simp only [KeyM.isPre, Bool.and_eq_false_iff, beq_eq_false_iff_ne, ne_eq]
          exact Or.inl fun h => hc h.symm
      | cons d j3 =>
        by_cases hc : c = ':'
        · by_cases hd : d = ':'
          · subst hc; subst hd
            simp [KeyM.hasSub, KeyM.isPre] at h1
          · subst hc
            simp only [KeyM.make_key, List.cons_append, KeyM.isPre,
              Bool.and_eq_false_iff, beq_eq_false_iff_ne, ne_eq]
            exact Or.inr (Or.inl fun h => hd h.symm)
        · simp only [KeyM.isPre, Bool.and_eq_false_iff, beq_eq_false_iff_ne, ne_eq]
          exact Or.inl fun h => hc h.symm
    have h1' : KeyM.hasSub [':', ':'] j2 = false := by
      simp [KeyM.hasSub] at h1
      exact h1.2
    have h2' : KeyM.endsColon j2 = false := by
      cases j2 with
      | nil => rfl
      | cons d j3 => simpa [KeyM.endsColon] using h2
    have hrec := ih h1' h2'
    show KeyM.splitFirst [':', ':'] (c :: KeyM.make_key j2 s) = _
    rw [KeyM.splitFirst, if_neg (by simp [hpre]), hrec]

/-- C9, counterexample to the claim as stated: a legal file path whose
name contains `::` (allowed in POSIX file names, and matched by the
`*.log` discovery glob) yields a job value containing the separator, and
splitting the key at the first `::` does not recover the pair. -/
theorem c9_counterexample :
    KeyM.hasSub [':', ':'] (KeyM.parse_job_stage "a::b.log".toList).1 = true ∧
    KeyM.splitFirst [':', ':']
        (KeyM.make_key (KeyM.parse_job_stage "a::b.log".toList).1
          (KeyM.parse_job_stage "a::b.log".toList).2) ≠
      some (KeyM.parse_job_stage "a::b.log".toList) := by
  decide

/-- C9 as amended: for every path whose parsed job component contains no
`::` and does not end in `:`, splitting `make_key(job, stage)` at the
first `::` recovers exactly `(job, stage)`. -/
theorem c9_key_round_trip (path : List Char)
    (h1 : KeyM.hasSub [':', ':'] (KeyM.parse_job_stage path).1 = false)
    (h2 : KeyM.endsColon (KeyM.parse_job_stage path).1 = false) :
    KeyM.splitFirst [':', ':']
        (KeyM.make_key (KeyM.parse_job_stage path).1 (KeyM.parse_job_stage path).2) =
      some (KeyM.parse_job_stage path) := by
  have h := splitFirst_make_key (KeyM.parse_job_stage path).2
    (KeyM.parse_job_stage path).1 h1 h2
  rw [h]

/-- Witness for C9 (amended) at the path `job42.stage3.log`. -/
theorem c9_key_round_trip_witness :
    KeyM.splitFirst [':', ':']
        (KeyM.make_key (KeyM.parse_job_stage "job42.stage3.log".toList).1
          (KeyM.parse_job_stage "job42.stage3.log".toList).2) =
      some (KeyM.parse_job_stage "job42.stage3.log".toList) :=
  c9_key_round_trip "job42.stage3.log".toList (by decide) (by decide)

/-- With the stub predicate `db_exists` (always true) the Status Engine
never reaches the no-result branch. -/
theorem engine_db_exists_no_file_states (job stage : String) (rec : FileFacts)
    (info : Info) (now_unix : Int) (is_extracting : Bool) :
    (get_status_and_update_info db_exists job stage rec info now_unix is_extracting).1 ≠
        "file running" ∧
    (get_status_and_update_info db_exists job stage rec info now_unix is_extracting).1 ≠
        "file failed" := by
  unfold get_status_and_update_info db_exists
  dsimp only
  split_ifs <;> simp_all

/-- Lookup after a dictionary update. -/
theorem lookupState_setState (st : List (String × Info)) (k k2 : String) (v : Info) :
    lookupState (setState st k v) k2 = if k = k2 then some v else lookupState st k2 := by
  induction st with
  | nil =>
    by_cases h : k = k2 <;> simp [setState, lookupState, h]
  | cons p rest ih =>
    obtain ⟨pk, pv⟩ := p
    by_cases h1 : pk = k
    · subst h1
      by_cases h2 : pk = k2 <;> simp [setState, lookupState, h2]
    · by_cases h2 : pk = k2
      · subst h2
        have hk : ¬ k = pk := fun h => h1 h.symm
        simp [setState, lookupState, h1, hk]
      · simp [setState, lookupState, h1, h2, ih]

/-- Pass 1 never stores a `file failed` status: a failed record surviving
pass 1 was already in the state untouched. -/
theorem processFile_no_fail (now_unix : Int) (ts : TickState) (r : FileRec)
    (k : String) (i : Info)
    (h : lookupState (processFile now_unix ts r).1.state k = some i)
    (hfail : i.last_status = some "file failed") :
    lookupState ts.state k = some i := by
  have hns := (engine_db_exists_no_file_states r.job r.stage r.facts
    ((lookupState ts.state (make_key r.job r.stage)).getD {}) now_unix
    (ts.futures.any (fun f => f.key == make_key r.job r.stage && !f.done))).2
  simp only [processFile] at h
  rw [lookupState_setState] at h
  by_cases hk : make_key r.job r.stage = k
  · rw [if_pos hk] at h
    exfalso
    injection h with h
    subst h
    simp only at hfail
    injection hfail with hfail
    split_ifs at hfail
    · exact absurd hfail (by decide)
    · exact hns hfail
  · rw [if_neg hk] at h
    exact h

/-- Pass 1 over a file list never stores a `file failed` status. -/
theorem pass1_no_fail (now_unix : Int) : ∀ (files : List FileRec) (ts : TickState)
    (d : Bool) (k : String) (i : Info),
    lookupState (pass1 now_unix ts files d).1.state k = some i →
    i.last_status = some "file failed" →
    lookupState ts.state k = some i := by
  intro files
  induction files with
  | nil =>
    intro ts d k i h hf
    simpa [pass1] using h
  | cons r rs ih =>
    intro ts d k i h hf
    simp only [pass1] at h
    exact processFile_no_fail now_unix ts r k i (ih _ _ _ _ h hf) hf

/-- Futures submitted during pass 1 are not done; any done future found
after pass 1 was already in the table before the tick. -/
theorem processFile_futures_done (now_unix : Int) (ts : TickState) (r : FileRec)
    (f : Fut) (hf : f ∈ (processFile now_unix ts r).1.futures)
    (hd : f.done = true) : f ∈ ts.futures := by
  simp only [processFile] at hf
  split_ifs at hf with hsub
  · rcases List.mem_append.mp hf with h1 | h2
    · exact h1
    · exfalso
      rw [List.mem_singleton] at h2
      subst h2
      simp at hd
  · exact hf

/-- Done futures after pass 1 were in the table before pass 1. -/
theorem pass1_futures_done (now_unix : Int) : ∀ (files : List FileRec)
    (ts : TickState) (d : Bool) (f : Fut),
    f ∈ (pass1 now_unix ts files d).1.futures → f.done = true → f ∈ ts.futures := by
  intro files
  induction files with
  | nil =>
    intro ts d f h hd
    simpa [pass1] using h
  | cons r rs ih =>
    intro ts d f h hd
    simp only [pass1] at h
    exact processFile_futures_done now_unix ts r f (ih _ _ _ h hd) hd

/-- A `file failed` status present after the drain either comes from a
failed finished extraction for that key or was already there. -/
theorem drainAll_fail_cause : ∀ (fs : List Fut) (ts : TickState) (d : Bool)
    (k : String) (i : Info),
    lookupState (drainAll ts d fs).1.state k = some i →
    i.last_status = some "file failed" →
    (∃ f ∈ fs, f.key = k ∧ f.ok = false) ∨ lookupState ts.state k = some i := by
  intro fs
  induction fs with
  | nil =>
    intro ts d k i h hf
    right
    simpa [drainAll] using h
  | cons f rest ih =>
    intro ts d k i h hf
    simp only [drainAll] at h
    rcases ih _ _ _ _ h hf with hc | hbase
    · left
      obtain ⟨g, hg, hgk, hgok⟩ := hc
      exact ⟨g, List.mem_cons_of_mem f hg, hgk, hgok⟩
    · simp only [drainOne] at hbase
      rw [lookupState_setState] at hbase
      by_cases hk : f.key = k
      · rw [if_pos hk] at hbase
        by_cases hok : f.ok = true
        · exfalso
          rw [if_pos hok] at hbase
          injection hbase with hb
          subst hb
          simp only at hf
          injection hf with hf
          exact absurd hf (by decide)
        · left
          exact ⟨f, List.mem_cons_self f rest, hk, by simpa using hok⟩
      · rw [if_neg hk] at hbase
        right
        exact hbase

/-- C10: since `db_exists` returns true for every identity, the Status
Engine never returns `file running` or `file failed`; within a tick, a
`file failed` status can only be assigned by the drain step after a
failed extraction task (or survive unchanged from before the tick). -/
theorem c10_no_result_branch_unreachable :
    (∀ (job stage : String) (rec : FileFacts) (info : Info) (now_unix : Int)
        (is_extracting : Bool),
      (get_status_and_update_info db_exists job stage rec info now_unix is_extracting).1 ≠
          "file running" ∧
      (get_status_and_update_info db_exists job stage rec info now_unix is_extracting).1 ≠
          "file failed") ∧
    (∀ (now_unix : Int) (ts0 : TickState) (files : List FileRec) (k : String) (i : Info),
      lookupState (tick now_unix ts0 files).1.state k = some i →
      i.last_status = some "file failed" →
      (∃ f ∈ ts0.futures, f.key = k ∧ f.done = true ∧ f.ok = false) ∨
        lookupState ts0.state k = some i) := by
  constructor
  · exact engine_db_exists_no_file_states
  · intro now_unix ts0 files k i h hf
    simp only [tick] at h
    rcases drainAll_fail_cause _ _ _ _ _ h hf with ⟨f, hfmem, hfk, hfok⟩ | hbase
    · left
      have hmem := List.mem_filter.mp hfmem
      have hdone : f.done = true := hmem.2
      exact ⟨f, pass1_futures_done now_unix files ts0 false f hmem.1 hdone, hfk, hdone, hfok⟩
    · right
      exact pass1_no_fail now_unix files ts0 false k i hbase hf

/-- Witness for C10 at a concrete tick: a failed finished extraction for
`j::s` is the cause of the `file failed` status found after the tick. -/
theorem c10_no_result_branch_unreachable_witness :
    (∃ f ∈ [(⟨"j::s", true, false⟩ : Fut)], f.key = "j::s" ∧ f.done = true ∧ f.ok = false) ∨
      lookupState
          [("j::s", ({ last_seen_mtime := some 5, last_status := some "extracting" } : Info))]
          "j::s" =
        some { last_seen_mtime := some 5, last_status := some "file failed" } :=
  c10_no_result_branch_unreachable.2 0
    ⟨[("j::s", { last_seen_mtime := some 5, last_status := some "extracting" })], [],
      [⟨"j::s", true, false⟩]⟩
    [] "j::s" { last_seen_mtime := some 5, last_status := some "file failed" }
    (by decide) (by decide)

/-- If pass 1 set the dirty flag, it was already set or some processed
file changed. -/
theorem pass1_dirty_cause (now_unix : Int) : ∀ (files : List FileRec)
    (ts : TickState) (d : Bool),
    (pass1 now_unix ts files d).2 = true → d = true ∨ Pass1Changed now_unix ts files := by
  intro files
  induction files with
  | nil =>
    intro ts d h
    left
    simpa [pass1] using h
  | cons r rs ih =>
    intro ts d h
    simp only [pass1] at h
    rcases ih _ _ h with hd | hch
    · have hd2 : d = true ∨ (processFile now_unix ts r).2 = true := by
        simpa using hd
      rcases hd2 with hd1 | hp
      · exact Or.inl hd1
      · exact Or.inr (Pass1Changed.here ts r rs hp)
    · exact Or.inr (Pass1Changed.there ts r rs hch)

/-- If the drain step set the dirty flag, it was already set or some
finished extraction updated a row. -/
theorem drainAll_dirty_cause : ∀ (fs : List Fut) (ts : TickState) (d : Bool),
    (drainAll ts d fs).2 = true → d = true ∨ DrainChanged ts fs := by
  intro fs
  induction fs with
  | nil =>
    intro ts d h
    left
    simpa [drainAll] using h
  | cons f rest ih =>
    intro ts d h
    simp only [drainAll] at h
    rcases ih _ _ h with hd | hch
    · have hd2 : d = true ∨ (drainOne ts f).2 = true := by
        simpa using hd
      rcases hd2 with hd1 | hp
      · exact Or.inl hd1
      · exact Or.inr (DrainChanged.here ts f rest hp)
    · exact Or.inr (DrainChanged.there ts f rest hch)

/-- C7: export gating.  The state file is written on every tick; the
snapshot CSV is written only on ticks that observed a change (a pass-1
identity that is new or whose status, rerun or modified time changed, or
a finished extraction folded into an existing row by the drain step). -/
theorem c7_export_gating (now_unix : Int) (ts0 : TickState) (files : List FileRec) :
    Effect.writeState (tick now_unix ts0 files).1.state ∈ (tick now_unix ts0 files).2 ∧
    (∀ rows, Effect.writeCsv rows ∈ (tick now_unix ts0 files).2 →
      TickChanged now_unix ts0 files) := by
  constructor
  · simp only [tick]
    exact List.mem_append_right _ (List.mem_singleton_self _)
  · intro rows h
    simp only [tick] at h
    rcases List.mem_append.mp h with h1 | h2
    · split_ifs at h1 with hb
      · have hq2 : (drainAll
            ⟨(pass1 now_unix ts0 files false).1.state, (pass1 now_unix ts0 files false).1.df,
              (pass1 now_unix ts0 files false).1.futures.filter (fun f => !f.done)⟩
            (pass1 now_unix ts0 files false).2
            ((pass1 now_unix ts0 files false).1.futures.filter (fun f => f.done))).2 = true := by
          simp only [Bool.and_eq_true] at hb
          exact hb.1
        rcases drainAll_dirty_cause _ _ _ hq2 with hp | hdc
        · rcases pass1_dirty_cause now_unix files ts0 false hp with hfalse | hch
          · exact absurd hfalse (by decide)
          · exact Or.inl hch
        · exact Or.inr hdc
      · simp at h1
    · exfalso
      simp at h2

/-- Witness for C7: a tick that discovers a new identity writes the CSV,
and the theorem traces that write to an observed change. -/
theorem c7_export_gating_witness :
    Effect.writeCsv [⟨"j", "s", 100, 1, "extracting", 0⟩] ∈
      (tick 1000 ⟨[], [], []⟩ [⟨"j", "s", ⟨100, 1⟩⟩]).2 ∧
    TickChanged 1000 ⟨[], [], []⟩ [⟨"j", "s", ⟨100, 1⟩⟩] := by
  constructor
  · decide
  · exact (c7_export_gating 1000 ⟨[], [], []⟩ [⟨"j", "s", ⟨100, 1⟩⟩]).2
      [⟨"j", "s", 100, 1, "extracting", 0⟩] (by decide)

/-- Every year has at least 365 days. -/
theorem daysInYear_ge (y : Nat) : 365 ≤ daysInYear y := by
  unfold daysInYear
  split <;> omega

/-- Every month is nonempty. -/
theorem daysInMonth_pos (y m : Nat) : 0 < daysInMonth y m := by
  unfold daysInMonth
  split_ifs <;> omega

/-- Year stripping inverts the year-day sum. -/
theorem stripYears_eq : ∀ (k fuel y r : Nat), k < fuel → r < daysInYear (y + k) →
    stripYears fuel y (daysFromYear y k + r) = (y + k, r) := by
  intro k
  induction k with
  | zero =>
    intro fuel y r hf hr
    obtain ⟨f, rfl⟩ : ∃ f, fuel = f + 1 := ⟨fuel - 1, by omega⟩
    have hr' : r < daysInYear y := by simpa using hr
    simp [stripYears, daysFromYear, hr']
  | succ k ih =>
    intro fuel y r hf hr
    obtain ⟨f, rfl⟩ : ∃ f, fuel = f + 1 := ⟨fuel - 1, by omega⟩
    have hd : daysFromYear y (k + 1) + r = daysInYear y + (daysFromYear (y + 1) k + r) := by
      rw [show daysFromYear y (k + 1) = daysInYear y + daysFromYear (y + 1) k from rfl]
      omega
    rw [hd]
    simp only [stripYears]
    rw [if_neg (by omega)]
    have harg : daysInYear y + (daysFromYear (y + 1) k + r) - daysInYear y =
        daysFromYear (y + 1) k + r := by omega
    rw [harg]
    have hr2 : r < daysInYear (y + 1 + k) := by
      have he : y + (k + 1) = y + 1 + k := by omega
      rwa [he] at hr
    rw [ih f (y + 1) r (by omega) hr2]
    have he : y + 1 + k = y + (k + 1) := by omega
    rw [he]

/-- Month stripping inverts the month-day sum. -/
theorem stripMonths_eq : ∀ (k fuel y m r : Nat), k < fuel → r < daysInMonth y (m + k) →
    stripMonths fuel y m (daysFromMonth y m k + r) = (m + k, r) := by
  intro k
  induction k with
  | zero =>
    intro fuel y m r hf hr
    obtain ⟨f, rfl⟩ : ∃ f, fuel = f + 1 := ⟨fuel - 1, by omega⟩
    have hr' : r < daysInMonth y m := by simpa using hr
    simp [stripMonths, daysFromMonth, hr']
  | succ k ih =>
    intro fuel y m r hf hr
    obtain ⟨f, rfl⟩ : ∃ f, fuel = f + 1 := ⟨fuel - 1, by omega⟩
    have hd : daysFromMonth y m (k + 1) + r =
        daysInMonth y m + (daysFromMonth y (m + 1) k + r) := by
      rw [show daysFromMonth y m (k + 1) = daysInMonth y m + daysFromMonth y (m + 1) k from rfl]
      omega
    rw [hd]
    simp only [stripMonths]
    rw [if_neg (by omega)]
    have harg : daysInMonth y m + (daysFromMonth y (m + 1) k + r) - daysInMonth y m =
        daysFromMonth y (m + 1) k + r := by omega
    rw [harg]
    have hr2 : r < daysInMonth y (m + 1 + k) := by
      have he : m + (k + 1) = m + 1 + k := by omega
      rwa [he] at hr
    rw [ih f y (m + 1) r (by omega) hr2]
    have he : m + 1 + k = m + (k + 1) := by omega
    rw [he]

/-- Splitting a run of consecutive months. -/
theorem daysFromMonth_split (y : Nat) : ∀ (k j a : Nat),
    daysFromMonth y a (k + j) = daysFromMonth y a k + daysFromMonth y (a + k) j := by
  intro k
  induction k with
  | zero =>
    intro j a
    simp [daysFromMonth]
  | succ k ih =>
    intro j a
    have h1 : k + 1 + j = (k + j) + 1 := by omega
    rw [h1]
    rw [show daysFromMonth y a ((k + j) + 1) =
        daysInMonth y a + daysFromMonth y (a + 1) (k + j) from rfl]
    rw [ih j (a + 1)]
    rw [show daysFromMonth y a (k + 1) = daysInMonth y a + daysFromMonth y (a + 1) k from rfl]
    have h2 : a + 1 + k = a + (k + 1) := by omega
    rw [h2]
    omega

/-- The twelve months of a year sum to the year's length. -/
theorem daysFromMonth_year (y : Nat) : daysFromMonth y 1 12 = daysInYear y := by
  cases h : isLeap y <;>
    simp [show (12 : Nat) = 11 + 1 from rfl, show (11 : Nat) = 10 + 1 from rfl,
      show (10 : Nat) = 9 + 1 from rfl, show (9 : Nat) = 8 + 1 from rfl,
      show (8 : Nat) = 7 + 1 from rfl, show (7 : Nat) = 6 + 1 from rfl,
      show (6 : Nat) = 5 + 1 from rfl, show (5 : Nat) = 4 + 1 from rfl,
      show (4 : Nat) = 3 + 1 from rfl, show (3 : Nat) = 2 + 1 from rfl,
      show (2 : Nat) = 1 + 1 from rfl, daysFromMonth, daysInMonth, daysInYear, h]

/-- The day offset of a valid date inside its year is below the year
length. -/
theorem monthdays_lt (y m d : Nat) (hm1 : 1 ≤ m) (hm12 : m ≤ 12) (hd1 : 1 ≤ d)
    (hdM : d ≤ daysInMonth y m) :
    daysFromMonth y 1 (m - 1) + (d - 1) < daysInYear y := by
  have h12 : (m - 1) + (12 - (m - 1)) = 12 := by omega
  have hsplit := daysFromMonth_split y (m - 1) (12 - (m - 1)) 1
  rw [h12] at hsplit
  have hrest : daysInMonth y (1 + (m - 1)) ≤ daysFromMonth y (1 + (m - 1)) (12 - (m - 1)) := by
    obtain ⟨j, hj⟩ : ∃ j, 12 - (m - 1) = j + 1 := ⟨12 - (m - 1) - 1, by omega⟩
    rw [hj]
    rw [show daysFromMonth y (1 + (m - 1)) (j + 1) =
        daysInMonth y (1 + (m - 1)) + daysFromMonth y (1 + (m - 1) + 1) j from rfl]
    omega
  have hmm : 1 + (m - 1) = m := by omega
  rw [hmm] at hsplit hrest
  have hyear := daysFromMonth_year y
  omega

/-- A run of years has at least one day per year. -/
theorem daysFromYear_ge (k : Nat) : ∀ (y : Nat), k ≤ daysFromYear y k := by
  induction k with
  | zero => intro y; simp [daysFromYear]
  | succ k ih =>
    intro y
    rw [show daysFromYear y (k + 1) = daysInYear y + daysFromYear (y + 1) k from rfl]
    have h1 := daysInYear_ge y
    have h2 := ih (y + 1)
    omega

/-- Decomposition inverts composition on every valid calendar tuple in
the representable range. -/
theorem epochToTuple_tupleToEpoch (y m d h mi s : Nat) (hv : ValidDT y m d h mi s) :
    epochToTuple (tupleToEpoch y m d h mi s) = (y, m, d, h, mi, s) := by
  obtain ⟨h1970, h9999, hm1, hm12, hd1, hdM, hh, hmi, hs⟩ := hv
  have hDeq : dateToDays y m d =
      daysFromYear 1970 (y - 1970) + (daysFromMonth y 1 (m - 1) + (d - 1)) := by
    unfold dateToDays
    omega
  have hE : tupleToEpoch y m d h mi s =
      86400 * dateToDays y m d + (3600 * h + 60 * mi + s) := by
    unfold tupleToEpoch
    omega
  have hdiv : (86400 * dateToDays y m d + (3600 * h + 60 * mi + s)) / 86400 =
      dateToDays y m d := by omega
  have hmod : (86400 * dateToDays y m d + (3600 * h + 60 * mi + s)) % 86400 =
      3600 * h + 60 * mi + s := by omega
  have hr : daysFromMonth y 1 (m - 1) + (d - 1) < daysInYear y :=
    monthdays_lt y m d hm1 hm12 hd1 hdM
  have hyfuel : y - 1970 < dateToDays y m d + 1 := by
    have := daysFromYear_ge (y - 1970) 1970
    omega
  have hyr : stripYears (dateToDays y m d + 1) 1970 (dateToDays y m d) =
      (y, daysFromMonth y 1 (m - 1) + (d - 1)) := by
    have hstep := stripYears_eq (y - 1970) (dateToDays y m d + 1) 1970
      (daysFromMonth y 1 (m - 1) + (d - 1)) hyfuel
      (by rw [show 1970 + (y - 1970) = y from by omega]; exact hr)
    rw [show 1970 + (y - 1970) = y from by omega] at hstep
    rw [← hDeq] at hstep
    exact hstep
  have hmo : stripMonths 12 y 1 (daysFromMonth y 1 (m - 1) + (d - 1)) = (m, d - 1) := by
    have hstep := stripMonths_eq (m - 1) 12 y 1 (d - 1) (by omega)
      (by rw [show 1 + (m - 1) = m from by omega]; omega)
    rw [show 1 + (m - 1) = m from by omega] at hstep
    exact hstep
  rw [hE]
  simp only [epochToTuple]
  rw [hdiv, hmod, hyr, hmo]
  simp only [Prod.mk.injEq]
  exact ⟨trivial, trivial, by omega, by omega, by omega, by omega⟩

/-- Digit characters are digits and round-trip through `digitVal`. -/
theorem digit_round : ∀ k < 10, isDig (digitChar k) = true ∧ digitVal (digitChar k) = k := by
  decide

/-- Months have at most 31 days. -/
theorem daysInMonth_le (y m : Nat) : daysInMonth y m ≤ 31 := by
  unfold daysInMonth
  split_ifs <;> omega

/-- Parsing a formatted date recovers the fields. -/
theorem parseDate_formatDate (y m d : Nat) (hy : y ≤ 9999) (hm : m ≤ 99) (hd : d ≤ 99) :
    parseDate (formatDate y m d) = some (y, m, d) := by
  have h4a := digit_round (y / 1000 % 10) (by omega)
  have h4b := digit_round (y / 100 % 10) (by omega)
  have h4c := digit_round (y / 10 % 10) (by omega)
  have h4d := digit_round (y % 10) (by omega)
  have hma := digit_round (m / 10 % 10) (by omega)
  have hmb := digit_round (m % 10) (by omega)
  have hda := digit_round (d / 10 % 10) (by omega)
  have hdb := digit_round (d % 10) (by omega)
  have hlist : (formatDate y m d).toList =
      [digitChar (y / 1000 % 10), digitChar (y / 100 % 10), digitChar (y / 10 % 10),
       digitChar (y % 10), '-', digitChar (m / 10 % 10), digitChar (m % 10), '-',
       digitChar (d / 10 % 10), digitChar (d % 10)] := by
    simp [formatDate, pad4, pad2, String.toList]
  unfold parseDate
  rw [hlist]
  dsimp only
  rw [if_pos (by simp [h4a.1, h4b.1, h4c.1, h4d.1, hma.1, hmb.1, hda.1, hdb.1])]
  simp only [h4a.2, h4b.2, h4c.2, h4d.2, hma.2, hmb.2, hda.2, hdb.2,
    Option.some.injEq, Prod.mk.injEq]
  exact ⟨by omega, by omega, by omega⟩

/-- Parsing a formatted time recovers the fields. -/
theorem parseTime_formatTime (h mi s : Nat) (hh : h ≤ 99) (hmi : mi ≤ 99) (hs : s ≤ 99) :
    parseTime (formatTime h mi s) = some (h, mi, s) := by
  have hha := digit_round (h / 10 % 10) (by omega)
  have hhb := digit_round (h % 10) (by omega)
  have hma := digit_round (mi / 10 % 10) (by omega)
  have hmb := digit_round (mi % 10) (by omega)
  have hsa := digit_round (s / 10 % 10) (by omega)
  have hsb := digit_round (s % 10) (by omega)
  have hlist : (formatTime h mi s).toList =
      [digitChar (h / 10 % 10), digitChar (h % 10), ':', digitChar (mi / 10 % 10),
       digitChar (mi % 10), ':', digitChar (s / 10 % 10), digitChar (s % 10)] := by
    simp [formatTime, pad2, String.toList]
  unfold parseTime
  rw [hlist]
  dsimp only
  rw [if_pos (by simp [hha.1, hhb.1, hma.1, hmb.1, hsa.1, hsb.1])]
  simp only [hha.2, hhb.2, hma.2, hmb.2, hsa.2, hsb.2, Option.some.injEq, Prod.mk.injEq]
  exact ⟨by omega, by omega, by omega⟩

/-- Applying `to_unix` to formatted valid fields parses and composes them. -/
theorem to_unix_format (y m d h mi s : Nat) (hv : ValidDT y m d h mi s) :
    to_unix (formatDate y m d) (formatTime h mi s) = some (tupleToEpoch y m d h mi s) := by
  have hv2 := hv
  obtain ⟨h1970, h9999, hm1, hm12, hd1, hdM, hh, hmi, hs⟩ := hv2
  have hd99 : d ≤ 99 := le_trans hdM (le_trans (daysInMonth_le y m) (by omega))
  unfold to_unix
  rw [parseDate_formatDate y m d (by omega) (by omega) hd99,
    parseTime_formatTime h mi s (by omega) (by omega) (by omega)]
  simp only
  rw [if_pos hv]

/-- C6: the time codec round-trips every valid calendar date/time pair in
the representable range (fixed process timezone). -/
theorem c6_time_codec_round_trip (y m d h mi s : Nat) (hv : ValidDT y m d h mi s) :
    ∃ e, to_unix (formatDate y m d) (formatTime h mi s) = some e ∧
      split_ts e = (formatDate y m d, formatTime h mi s) := by
  refine ⟨tupleToEpoch y m d h mi s, to_unix_format y m d h mi s hv, ?_⟩
  unfold split_ts
  rw [epochToTuple_tupleToEpoch y m d h mi s hv]

/-- Witness for C6 at the leap date `2024-02-29 23:59:59`. -/
theorem c6_time_codec_round_trip_witness :
    ValidDT 2024 2 29 23 59 59 ∧
    ∃ e, to_unix (formatDate 2024 2 29) (formatTime 23 59 59) = some e ∧
      split_ts e = (formatDate 2024 2 29, formatTime 23 59 59) :=
  ⟨by decide, c6_time_codec_round_trip 2024 2 29 23 59 59 (by decide)⟩
